import Mathlib

/-!
Shallow embedding of the Lox tree-walking interpreter of this repository
(scanner, environment chain, resolver, class/instance objects and the
expression evaluator), together with proofs about the behaviour its
specification claims.

Go `interface{}` runtime values become the inductive `Lox.Value`.  Go
`float64` numbers are modelled as exact fractions (`Lox.Q`, an integer
numerator over a natural denominator, compared by cross-multiplication):
none of the properties proved here depends on IEEE-754 rounding,
infinities or NaN, and the exact model keeps every definition kernel-
computable.  Go maps are modelled as association lists, and the Go
linked environment chain as a list of frames whose head is the current
frame and whose last element is the global frame.
-/

namespace Lox

/-- Tokens, as in the source's `Token` struct (the later stages add the
`Line` field used by the resolver and by diagnostics; `TokenType` is a
string in the source and is kept as a string here). -/
structure Token where
  ttype : String
  lexeme : String
  literal : String
  line : Nat
deriving DecidableEq, Repr

/-- Exact fraction standing in for Go's `float64`: numerator over
denominator, not normalised (no gcd), compared by cross-multiplication.
Every value the embedded interpreter builds has a positive denominator. -/
structure Q where
  num : Int
  den : Nat
deriving DecidableEq, Repr

/-- Embed a natural number as a fraction. -/
def qOfNat (n : Nat) : Q := ⟨(n : Int), 1⟩

/-- Value equality of fractions: the meaning of `==` on `float64`. -/
def qEq (a b : Q) : Bool := a.num * (b.den : Int) == b.num * (a.den : Int)

/-- Fraction negation. -/
def qNeg (a : Q) : Q := ⟨-a.num, a.den⟩

mutual

/-- Runtime values of the interpreter (`interface{}` in the source):
nil, booleans, numbers (`float64`, modelled by `Q`), strings, user
functions, classes and instances. -/
inductive Value where
| vnil : Value
| vbool : Bool → Value
| vnum : Q → Value
| vstr : String → Value
| vfun : FunV → Value
| vclass : ClassV → Value
| vinst : InstV → Value

/-- `LoxFunction` from `ast.go`: a declaration (name and parameter list)
together with the captured closure environment (a chain of frames). -/
inductive FunV where
| mk : String → List String → List (List (String × Value)) → FunV

/-- `LoxClass` from `ast.go`: a name and a method table. -/
inductive ClassV where
| mk : String → List (String × FunV) → ClassV

/-- `LoxInstance` from `ast.go`: a class reference and a field table. -/
inductive InstV where
| mk : ClassV → List (String × Value) → InstV

end

/-- Name of a function declaration. -/
def FunV.fname : FunV → String
| .mk n _ _ => n

/-- Parameter list of a function declaration (`declaration.Params`). -/
def FunV.params : FunV → List String
| .mk _ p _ => p

/-- Captured closure environment of a function. -/
def FunV.closure : FunV → List (List (String × Value))
| .mk _ _ c => c

/-- Method table of a class. -/
def ClassV.methods : ClassV → List (String × FunV)
| .mk _ m => m

/-- Name of a class. -/
def ClassV.cname : ClassV → String
| .mk n _ => n

/-- Class of an instance. -/
def InstV.cls : InstV → ClassV
| .mk c _ => c

/-- Field table of an instance. -/
def InstV.fields : InstV → List (String × Value)
| .mk _ f => f

/-- A single environment frame: the `values` map of `Environment`. -/
abbrev Frame := List (String × Value)

/-- An environment chain: head is the current frame, last is the global
frame (the source links frames through the `enclosing` pointer). -/
abbrev Env := List Frame

/-! ### Number parsing (model of `strconv.ParseFloat`)

The source parses number-like strings with `strconv.ParseFloat(s, 64)`.
We model it as exact parsing into a fraction, accepting what `ParseFloat`
accepts: an optional sign; a decimal mantissa with at most one `.` (at
least one digit) and an optional `e`/`E` decimal exponent; a hexadecimal
float `0x`/`0X` with hex mantissa (at most one `.`, at least one digit)
and the mandatory `p`/`P` power-of-two exponent (so `0x1.8p1` is 3);
with underscore placement validated exactly as Go's `underscoreOK` does
before underscores are skipped.  Only the `Inf`/`NaN` spellings are
outside the model: they denote no finite rational, they contain no `.`,
and every path of the embedded interpreter that parses a string either
guards on `strings.Contains(s, ".")` first (`isEqual`, `isNumber`) or is
reached only for operands `isNumber` accepted (`toNumber` inside
`checkNumberOperands` and the `+` branch), so they are unreachable. -/

/-- Numeric value of a decimal digit character. -/
def digitVal (c : Char) : Nat := c.toNat - '0'.toNat

/-- Value of a digit string read in base 10. -/
def digitsToNat (cs : List Char) : Nat :=
  cs.foldl (fun acc c => acc * 10 + digitVal c) 0

/-- Split a character list into its maximal digit prefix and the rest. -/
def spanDigits : List Char → List Char × List Char
| [] => ([], [])
| c :: cs =>
  if c.isDigit then (c :: (spanDigits cs).1, (spanDigits cs).2)
  else ([], c :: cs)

/-- Exact value of `intD.fracD` as a fraction. -/
def decValue (intD fracD : List Char) : Q :=
  ⟨(digitsToNat intD * 10 ^ fracD.length + digitsToNat fracD : Nat), 10 ^ fracD.length⟩

/-- Scale a fraction by a signed power of ten (the exponent suffix). -/
def scalePow10 (base : Q) (neg : Bool) (e : Nat) : Q :=
  if neg then ⟨base.num, base.den * 10 ^ e⟩ else ⟨base.num * (10 ^ e : Nat), base.den⟩

/-- Parse the exponent suffix (after `e`/`E`): optional sign then digits. -/
def parseExpPart (base : Q) (cs : List Char) : Option Q :=
  let p : Bool × List Char :=
    match cs with
    | '+' :: r => (false, r)
    | '-' :: r => (true, r)
    | _ => (false, cs)
  let q := spanDigits p.2
  if q.1.isEmpty || !q.2.isEmpty then none
  else some (scalePow10 base p.1 (digitsToNat q.1))

/-- Parse an unsigned decimal: digits, optional `.` and more digits,
optional exponent; at least one digit overall, nothing left over. -/
def parseDec (cs : List Char) : Option Q :=
  let p := spanDigits cs
  let q : List Char × List Char :=
    match p.2 with
    | '.' :: r => spanDigits r
    | _ => ([], p.2)
  if p.1.isEmpty && q.1.isEmpty then none
  else
    let base := decValue p.1 q.1
    match q.2 with
    | [] => some base
    | 'e' :: r3 => parseExpPart base r3
    | 'E' :: r3 => parseExpPart base r3
    | _ => none

/-- Is the character a hexadecimal digit? -/
def isHexDigitCh (c : Char) : Bool :=
  c.isDigit || ('a' ≤ c && c ≤ 'f') || ('A' ≤ c && c ≤ 'F')

/-- Numeric value of a hexadecimal digit character. -/
def hexVal (c : Char) : Nat :=
  if c.isDigit then c.toNat - '0'.toNat
  else if 'a' ≤ c && c ≤ 'f' then c.toNat - 'a'.toNat + 10
  else c.toNat - 'A'.toNat + 10

/-- Value of a hex-digit string read in base 16. -/
def hexToNat (cs : List Char) : Nat :=
  cs.foldl (fun acc c => acc * 16 + hexVal c) 0

/-- Split a character list into its maximal hex-digit prefix and the
rest. -/
def spanHexDigits : List Char → List Char × List Char
| [] => ([], [])
| c :: cs =>
  if isHexDigitCh c then (c :: (spanHexDigits cs).1, (spanHexDigits cs).2)
  else ([], c :: cs)

/-- The scan state of Go's `underscoreOK`: 0 for the beginning of the
number (Go's `'^'`), 1 after a digit or base prefix (`'0'`), 2 after an
underscore (`'_'`), 3 after any other character (`'!'`). -/
def underscoreLoop (hex : Bool) : List Char → Nat → Bool
| [], saw => !(saw == 2)
| c :: cs, saw =>
  if c.isDigit || (hex && (('a' ≤ c && c ≤ 'f') || ('A' ≤ c && c ≤ 'F'))) then
    underscoreLoop hex cs 1
  else if c = '_' then
    if saw == 1 then underscoreLoop hex cs 2 else false
  else if saw == 2 then false
  else underscoreLoop hex cs 3

/-- Go's `underscoreOK` (strconv): underscores may appear only between
a base prefix or digit and another digit; an optional sign and an
optional `0b`/`0o`/`0x` prefix (which counts as a digit) come first. -/
def underscoreOK (cs : List Char) : Bool :=
  let cs1 := match cs with
    | '+' :: r => r
    | '-' :: r => r
    | _ => cs
  match cs1 with
  | '0' :: b :: rest =>
    if b = 'x' || b = 'X' then underscoreLoop true rest 1
    else if b = 'b' || b = 'B' || b = 'o' || b = 'O' then underscoreLoop false rest 1
    else underscoreLoop false cs1 0
  | _ => underscoreLoop false cs1 0

/-- Parse the mandatory hex-float exponent (after `p`/`P`): optional
sign then decimal digits, nothing left over; the mantissa is
`mantissa / 16 ^ fracLen` and the exponent scales by a power of two. -/
def parseHexExp (mantissa : Nat) (fracLen : Nat) (cs : List Char) : Option Q :=
  let e : Bool × List Char :=
    match cs with
    | '+' :: r => (false, r)
    | '-' :: r => (true, r)
    | _ => (false, cs)
  let d := spanDigits e.2
  if d.1.isEmpty || !d.2.isEmpty then none
  else
    if e.1 then some ⟨(mantissa : Int), 16 ^ fracLen * 2 ^ digitsToNat d.1⟩
    else some ⟨(mantissa * 2 ^ digitsToNat d.1 : Nat), 16 ^ fracLen⟩

/-- Parse a hexadecimal float after its `0x` prefix: hex digits, at most
one `.`, at least one digit, then the mandatory `p`/`P` exponent
(`ParseFloat` rejects a hex mantissa without one). -/
def parseHex (cs : List Char) : Option Q :=
  let p := spanHexDigits cs
  let q : List Char × List Char :=
    match p.2 with
    | '.' :: r => spanHexDigits r
    | _ => ([], p.2)
  if p.1.isEmpty && q.1.isEmpty then none
  else
    match q.2 with
    | 'p' :: r3 => parseHexExp (hexToNat p.1 * 16 ^ q.1.length + hexToNat q.1) q.1.length r3
    | 'P' :: r3 => parseHexExp (hexToNat p.1 * 16 ^ q.1.length + hexToNat q.1) q.1.length r3
    | _ => none

/-- Parse an unsigned number with underscores already removed: a
`0x`/`0X` prefix goes to the hex-float grammar, anything else to the
decimal grammar. -/
def parseNoSign (cs : List Char) : Option Q :=
  match cs with
  | '0' :: x :: rest =>
    if x = 'x' || x = 'X' then parseHex rest
    else parseDec cs
  | _ => parseDec cs

/-- Model of `strconv.ParseFloat(s, 64)`: validate underscore placement
as Go does, skip the underscores, strip the sign, then parse the
decimal or hexadecimal form (see the section header for the `Inf`/`NaN`
spellings, which no reachable path observes). -/
def parseFloatQ (s : String) : Option Q :=
  if !(underscoreOK s.toList) then none
  else
    match s.toList.filter (fun c => !(c == '_')) with
    | '+' :: r => parseNoSign r
    | '-' :: r => (parseNoSign r).map qNeg
    | cs => parseNoSign cs

/-- Model of `strings.Contains(s, ".")`. -/
def containsDot (s : String) : Bool := s.toList.contains '.'

/-! ### Equality, numbers and binary operators (`Interpreter`) -/

/-- A string is "numeric" for the interpreter when it contains a decimal
point and `ParseFloat` accepts it — the test that `isEqual` and
`isNumber` both apply (source: `strings.Contains(str, ".")`, then
`strconv.ParseFloat`). -/
def isNumericString (s : String) : Bool :=
  containsDot s && (parseFloatQ s).isSome

/-- The numeric reading `isEqual` gives a value, when it has one: a
number is itself; a string that contains `.` and parses is its parsed
value; everything else has none. -/
def coerceNum? : Value → Option Q
| .vnum n => some n
| .vstr s => if containsDot s then parseFloatQ s else none
| _ => none

/-- `Interpreter.isEqual`: nil equals only nil; values that read as
numbers (floats, or strings with a `.` that parse) compare numerically;
two non-numeric strings compare as strings; two booleans compare as
booleans; everything else is unequal. -/
def isEqual (left right : Value) : Bool :=
  match left, right with
  | .vnil, .vnil => true
  | .vnil, _ => false
  | _, .vnil => false
  | l, r =>
    match coerceNum? l, coerceNum? r with
    | some a, some b => qEq a b
    | _, _ =>
      match l, r with
      | .vstr s1, .vstr s2 =>
        if !(isNumericString s1) && !(isNumericString s2) then s1 == s2 else false
      | .vbool b1, .vbool b2 => b1 == b2
      | _, _ => false

/-- `Interpreter.isTruthy`: nil and false are falsy, all else truthy. -/
def isTruthy : Value → Bool
| .vnil => false
| .vbool b => b
| _ => true

/-- Membership test of a frame's map (`_, ok := e.values[name]`). -/
def frameHas (f : Frame) (x : String) : Bool := (f.lookup x).isSome

/-- Write an existing key of a frame's map (`e.values[name] = value`);
leaves the frame unchanged when the key is absent. -/
def frameAssign : Frame → String → Value → Frame
| [], _, _ => []
| (k, w) :: rest, x, v => if k = x then (k, v) :: rest else (k, w) :: frameAssign rest x v

/-- `Environment.Assign`: if the current frame defines the name, write
there; otherwise recurse into the enclosing chain; at the end of the
chain report "Undefined variable 'x'." without touching anything. -/
def envAssign : Env → String → Value → Except String Env
| [], x, _ => .error ("Undefined variable '" ++ x ++ "'.")
| f :: rest, x, v =>
  if frameHas f x then .ok (frameAssign f x v :: rest)
  else
    match envAssign rest x v with
    | .ok rest2 => .ok (f :: rest2)
    | .error e => .error e

/-- Does any frame of a chain define the name? -/
def envDefines (env : Env) (x : String) : Bool := env.any (fun f => frameHas f x)

/-! ### Classes, instances and method binding (`ast.go`) -/

/-- `LoxClass.FindMethod`: look the name up in the method table. -/
def FindMethod (c : ClassV) (name : String) : Option FunV :=
  (ClassV.methods c).lookup name

/-- `LoxFunction.Bind` as it stands in the source: the comment promises
binding `this`, the body returns the receiver function unchanged
("For now, we'll just return the function as-is"). -/
def Bind (f : FunV) (inst : InstV) : FunV := f

/-- `LoxClass.Arity` as it stands in the source: always 0, whether or
not the class declares an `init` method. -/
def ClassArity (c : ClassV) : Nat := 0

/-- `LoxClass.Call` as it stands in the source: build a fresh instance
with an empty field table and return it; an `init` method is never
looked up, bound or invoked. -/
def ClassCall (c : ClassV) (args : List Value) : InstV := .mk c []

/-- `LoxInstance.Get`: fields first, then a method bound to the
instance; `none` models the source's `nil` result that the interpreter
turns into "Undefined property". -/
def instGet (inst : InstV) (name : String) : Option Value :=
  match (InstV.fields inst).lookup name with
  | some v => some v
  | none =>
    match FindMethod (InstV.cls inst) name with
    | some m => some (.vfun (Bind m inst))
    | none => none

/-- Insert-or-overwrite on an instance's field map (`LoxInstance.Set`). -/
def setField : List (String × Value) → String → Value → List (String × Value)
| [], x, v => [(x, v)]
| (k, w) :: rest, x, v => if k = x then (k, v) :: rest else (k, w) :: setField rest x v

/-- `LoxInstance.Set`: store the value in the field table. -/
def instSet (inst : InstV) (name : String) (v : Value) : InstV :=
  .mk (InstV.cls inst) (setField (InstV.fields inst) name v)

/-! ### Diagnostics (`Interpreter.runtimeError`, `Parser.reportError`)

Both sites in the source hardcode line 1: `runtimeError` prints with
`"%s\n[line 1]\n"`, and `Parser.reportError` prints with
`"[line 1] Error %s: %s\n"` next to a comment calling line 1 a
placeholder.  The token argument's line is ignored, as in the source. -/

/-- Stderr text of `Interpreter.runtimeError`. -/
def runtimeErrorMsg (tok : Token) (message : String) : String :=
  message ++ "\n[line 1]\n"

/-- Stderr text of `Parser.reportError`. -/
def parserReport (wh message : String) : String :=
  "[line 1] Error " ++ wh ++ ": " ++ message ++ "\n"

/-- `Parser.error`: picks "at end" for EOF tokens and "at '<lexeme>'"
otherwise, then reports. -/
def parserErrorMsg (tok : Token) (message : String) : String :=
  if tok.ttype = "EOF" then parserReport "at end" message
  else parserReport ("at '" ++ tok.lexeme ++ "'") message

/-! ### Resolver (`Resolver.declare` / `define` / `resolveLocal`)

The Go resolver keeps `scopes []map[string]bool` with the innermost
scope at the end of the slice; here the head of the list is the
innermost scope, and the depth recorded for a hit in the i-th scope from
the inside is i — exactly `len(scopes)-1-i` of the source's indexing.
Error output is accumulated in `errs`. -/

/-- One lexical scope: name to "defined" flag. -/
abbrev Scope := List (String × Bool)

/-- Insert-or-overwrite on a scope map. -/
def scopeSet : Scope → String → Bool → Scope
| [], x, b => [(x, b)]
| (k, w) :: rest, x, b => if k = x then (k, b) :: rest else (k, w) :: scopeSet rest x b

/-- Resolver state: scope stack (head innermost), the interpreter's
side table of expression-id to depth, accumulated error text, and the
error flag. -/
structure Resolver where
  scopes : List Scope
  table : List (Nat × Nat)
  errs : List String
  hadError : Bool
deriving DecidableEq, Repr

/-- The duplicate-declaration diagnostic of `Resolver.declare`. -/
def dupMsg (name : Token) : String :=
  "[line " ++ toString name.line ++ "] Error at '" ++ name.lexeme ++
    "': Already a variable with this name in this scope."

/-- `Resolver.declare`: no-op with an empty scope stack; an error when
the innermost scope already has the name; otherwise mark the name "not
ready" in the innermost scope. -/
def declare (r : Resolver) (name : Token) : Resolver :=
  match r.scopes with
  | [] => r
  | scope :: rest =>
    if (scope.lookup name.lexeme).isSome then
      { r with hadError := true, errs := dupMsg name :: r.errs }
    else { r with scopes := scopeSet scope name.lexeme false :: rest }

/-- `Resolver.define`: no-op with an empty scope stack; otherwise mark
the name "ready" in the innermost scope. -/
def define (r : Resolver) (name : Token) : Resolver :=
  match r.scopes with
  | [] => r
  | scope :: rest => { r with scopes := scopeSet scope name.lexeme true :: rest }

/-- Depth of the first scope (from the inside) containing the name. -/
def findScopeDepth : List Scope → String → Option Nat
| [], _ => none
| scope :: rest, x =>
  if (scope.lookup x).isSome then some 0
  else (findScopeDepth rest x).map (· + 1)

/-- `Resolver.resolveLocal`: walk the scope stack from the innermost
scope; record the depth of the first hit in the interpreter's side
table; record nothing when the name is in no scope (a global). -/
def resolveLocal (r : Resolver) (eid : Nat) (name : Token) : Resolver :=
  match findScopeDepth r.scopes name.lexeme with
  | some d => { r with table := (eid, d) :: r.table }
  | none => r

/-! ### Scanner

Modelled from the spec: the scanner stage that emits `NUMBER`, `STRING`
and `IDENTIFIER` tokens is not among the stage snapshots under `src/`
(those scanners handle only punctuation), so the definitions below
follow §4.1 of the specification: single pass, 1-based line counter,
whitespace skipped, `//` comments to end of line, strings in double
quotes, numbers matching `[0-9]+('.'[0-9]+)?` (a trailing dot is not
part of the number), identifiers `[A-Za-z_][A-Za-z0-9_]*` checked
against the reserved-word table, and numeric canonicalisation "parse,
format with minimum fractional digits, ensure at least a `.0` suffix"
taken exactly (the literal's decimal digits normalised, which is the
spec's rule on every decimal the scanner accepts). -/

/-- Drop leading `'0'` characters but keep at least one character. -/
def stripLeadZeros : List Char → List Char
| [] => []
| [c] => [c]
| c :: d :: rest => if c = '0' then stripLeadZeros (d :: rest) else c :: d :: rest

/-- Drop trailing `'0'` characters but keep at least one character. -/
def stripTrailZeros (l : List Char) : List Char :=
  (stripLeadZeros l.reverse).reverse

/-- Canonical literal of a number token: integer digits without leading
zeros, a dot, fractional digits without trailing zeros (`.0` when the
lexeme had no fraction): `42` to `42.0`, `3.140` to `3.14`. -/
def canonNumLit (intD fracD : List Char) : String :=
  let ip := stripLeadZeros intD
  let fp := if fracD.isEmpty then ['0'] else stripTrailZeros fracD
  String.mk (ip ++ '.' :: fp)

/-- Split a character list at its first `'.'`. -/
def splitAtDot : List Char → Option (List Char × List Char)
| [] => none
| c :: cs =>
  if c = '.' then some ([], cs)
  else (splitAtDot cs).map (fun p => (c :: p.1, p.2))

/-- The canonical-decimal shape the spec requires of every `NUMBER`
literal: one dot, at least one digit on each side, no leading zero on
the integer part and no trailing zero on the fraction (except a lone
`0`). -/
def isCanonLit (cs : List Char) : Bool :=
  match splitAtDot cs with
  | none => false
  | some (ip, fp) =>
    !ip.isEmpty && !fp.isEmpty && ip.all Char.isDigit && fp.all Char.isDigit &&
      (ip == ['0'] || !(ip.head? == some '0')) &&
      (fp == ['0'] || !(fp.getLast? == some '0'))

/-- Is the character an identifier head (letter or underscore)? -/
def isIdentStart (c : Char) : Bool := c.isAlpha || c = '_'

/-- Is the character an identifier continuation? -/
def isIdentCont (c : Char) : Bool := c.isAlpha || c.isDigit || c = '_'

/-- Split off the maximal identifier-continuation prefix. -/
def spanIdent : List Char → List Char × List Char
| [] => ([], [])
| c :: cs =>
  if isIdentCont c then (c :: (spanIdent cs).1, (spanIdent cs).2)
  else ([], c :: cs)

/-- Reserved words and their token types. -/
def keywordType (w : String) : Option String :=
  [("and", "AND"), ("class", "CLASS"), ("else", "ELSE"), ("false", "FALSE"),
   ("for", "FOR"), ("fun", "FUN"), ("if", "IF"), ("nil", "NIL"),
   ("or", "OR"), ("print", "PRINT"), ("return", "RETURN"), ("super", "SUPER"),
   ("this", "THIS"), ("true", "TRUE"), ("var", "VAR"), ("while", "WHILE")].lookup w

/-- Fractional digits of a number lexeme: consumed only when a digit
follows the dot (a trailing dot is left for the next token). -/
def scanFrac : List Char → List Char × List Char
| '.' :: c :: rest =>
  if c.isDigit then spanDigits (c :: rest)
  else ([], '.' :: c :: rest)
| l => ([], l)

/-- Scan a string literal body after the opening quote: content, rest
of the input and updated line counter; `none` when unterminated. -/
def scanStrBody : List Char → Nat → Option (List Char × List Char × Nat)
| [], _ => none
| '"' :: rest, line => some ([], rest, line)
| c :: rest, line =>
  match scanStrBody rest (if c = '\n' then line + 1 else line) with
  | some (content, r, l) => some (c :: content, r, l)
  | none => none

/-- Drop a `//` comment: everything up to (not including) the newline. -/
def dropLineComment : List Char → List Char
| [] => []
| '\n' :: rest => '\n' :: rest
| _ :: rest => dropLineComment rest

/-- The EOF sentinel token. -/
def eofTok (line : Nat) : Token := ⟨"EOF", "", "null", line⟩

/-- One-or-two-character operator and punctuation lexemes get an `OP`
token; the spec's per-lexeme kinds do not matter to any claim. Unknown
characters are reported to stderr and produce no token; the model skips
them. -/
def opTok (lex : String) (line : Nat) : Token := ⟨"OP", lex, "null", line⟩

/-- The scanner loop, spec-modelled (§4.1): fuel-indexed recursion;
every step consumes at least one character, so `fuel = length` runs the
input to its end. -/
def scanLoop : Nat → List Char → Nat → List Token
| 0, _, line => [eofTok line]
| _ + 1, [], line => [eofTok line]
| fuel + 1, c :: cs, line =>
  if c = '\n' then scanLoop fuel cs (line + 1)
  else if c = ' ' || c = '\r' || c = '\t' then scanLoop fuel cs line
  else if c = '/' then
    match cs with
    | '/' :: rest => scanLoop fuel (dropLineComment rest) line
    | _ => opTok "/" line :: scanLoop fuel cs line
  else if c.isDigit then
    let p := spanDigits (c :: cs)
    let q := scanFrac p.2
    let lex := p.1 ++ (if q.1.isEmpty then [] else '.' :: q.1)
    ⟨"NUMBER", String.mk lex, canonNumLit p.1 q.1, line⟩ :: scanLoop fuel q.2 line
  else if isIdentStart c then
    let p := spanIdent (c :: cs)
    let w := String.mk p.1
    (match keywordType w with
     | some k => ⟨k, w, "null", line⟩
     | none => ⟨"IDENTIFIER", w, "null", line⟩) :: scanLoop fuel p.2 line
  else if c = '"' then
    match scanStrBody cs line with
    | some (content, rest, line2) =>
      ⟨"STRING", String.mk ('"' :: content ++ ['"']), String.mk content, line⟩ ::
        scanLoop fuel rest line2
    | none => [eofTok line]
  else if c = '!' || c = '=' || c = '<' || c = '>' then
    match cs with
    | '=' :: rest => opTok (String.mk [c, '=']) line :: scanLoop fuel rest line
    | _ => opTok (String.mk [c]) line :: scanLoop fuel cs line
  else if c = '(' || c = ')' || c = '{' || c = '}' || c = ',' || c = '.' ||
          c = '-' || c = '+' || c = ';' || c = '*' then
    opTok (String.mk [c]) line :: scanLoop fuel cs line
  else scanLoop fuel cs line

/-- `Scanner.ScanTokens`, spec-modelled: run the loop over the whole
source and finish with the EOF sentinel. -/
def scanTokens (src : String) : List Token :=
  scanLoop src.toList.length src.toList 1


/-! ### Sample objects used by concrete witnesses -/

/-- An `init` method declaration with two parameters (as in the spec's
`Point` scenario); the closure chain holds one one-binding frame. -/
def initFn : FunV := .mk "init" ["x", "y"] [[("a", .vnum (qOfNat 1))]]

/-- A class declaring the `init` method above. -/
def pointClass : ClassV := .mk "Point" [("init", initFn)]

/-- A method with no parameters, used by binding and equality tests. -/
def eatFn : FunV := .mk "eat" [] [[("a", .vnum (qOfNat 1))]]

/-- A class with the single method `eat`. -/
def baconClass : ClassV := .mk "Bacon" [("eat", eatFn)]

/-- A fresh instance of `baconClass`. -/
def inst0 : InstV := .mk baconClass []

/-- A two-frame environment: inner frame defines `a`, global defines
`a` and `b`. -/
def env0 : Env :=
  [[("a", .vnum (qOfNat 1))],
   [("a", .vnum (qOfNat 2)), ("b", .vnum (qOfNat 3))]]

/-- A resolver with one scope declaring `x`, used by witnesses. -/
def res0 : Resolver := ⟨[[("x", true)]], [], [], false⟩

/-- A resolver with an empty scope stack (top level). -/
def resTop : Resolver := ⟨[], [], [], false⟩

/-! ## Lemmas about the scanner's number canonicalisation -/

theorem spanDigits_all (cs : List Char) : (spanDigits cs).1.all Char.isDigit = true := by
  induction cs with
  | nil => rfl
  | cons c cs ih =>
    by_cases hc : c.isDigit
    · simp [spanDigits, hc, ih]
    · simp [spanDigits, hc]

theorem scanFrac_all (l : List Char) : (scanFrac l).1.all Char.isDigit = true := by
  unfold scanFrac
  split
  · split
    · exact spanDigits_all _
    · rfl
  · rfl

theorem stripLeadZeros_ne_nil (l : List Char) (h : l ≠ []) : stripLeadZeros l ≠ [] := by
  induction l with
  | nil => exact absurd rfl h
  | cons c tail ih =>
    cases tail with
    | nil => simp [stripLeadZeros]
    | cons d rest =>
      by_cases hc : c = '0'
      · simpa [stripLeadZeros, hc] using ih (by simp)
      · simp [stripLeadZeros, hc]

theorem stripLeadZeros_all (l : List Char) (h : l.all Char.isDigit = true) :
    (stripLeadZeros l).all Char.isDigit = true := by
  induction l with
  | nil => rfl
  | cons c tail ih =>
    cases tail with
    | nil => simpa [stripLeadZeros] using h
    | cons d rest =>
      by_cases hc : c = '0'
      · have h2 : (d :: rest).all Char.isDigit = true := by
          simp only [List.all_cons, Bool.and_eq_true] at h ⊢
          exact h.2
        simpa [stripLeadZeros, hc] using ih h2
      · simpa [stripLeadZeros, hc] using h

theorem stripLeadZeros_head (l : List Char) :
    stripLeadZeros l = ['0'] ∨ (stripLeadZeros l).head? ≠ some '0' := by
  induction l with
  | nil => right; simp [stripLeadZeros]
  | cons c tail ih =>
    cases tail with
    | nil =>
      by_cases hc : c = '0'
      · left; simp [stripLeadZeros, hc]
      · right; simp [stripLeadZeros, hc]
    | cons d rest =>
      by_cases hc : c = '0'
      · simpa [stripLeadZeros, hc] using ih
      · right; simp [stripLeadZeros, hc]

theorem stripTrailZeros_ne_nil (l : List Char) (h : l ≠ []) : stripTrailZeros l ≠ [] := by
  have h1 : l.reverse ≠ [] := by simpa using h
  have h2 := stripLeadZeros_ne_nil l.reverse h1
  simpa [stripTrailZeros] using h2

theorem stripTrailZeros_all (l : List Char) (h : l.all Char.isDigit = true) :
    (stripTrailZeros l).all Char.isDigit = true := by
  have h1 : l.reverse.all Char.isDigit = true := by simpa using h
  have h2 := stripLeadZeros_all l.reverse h1
  simpa [stripTrailZeros] using h2

theorem stripTrailZeros_last (l : List Char) :
    stripTrailZeros l = ['0'] ∨ (stripTrailZeros l).getLast? ≠ some '0' := by
  rcases stripLeadZeros_head l.reverse with h | h
  · left; simp [stripTrailZeros, h]
  · right; simpa [stripTrailZeros, List.getLast?_reverse] using h

theorem splitAtDot_append (a b : List Char) (h : ∀ c ∈ a, c ≠ '.') :
    splitAtDot (a ++ '.' :: b) = some (a, b) := by
  induction a with
  | nil => simp [splitAtDot]
  | cons c tail ih =>
    have hc : c ≠ '.' := h c (by simp)
    have ht : ∀ x ∈ tail, x ≠ '.' := fun x hx => h x (by simp [hx])
    simp [splitAtDot, hc, ih ht]

theorem all_digits_no_dot (l : List Char) (h : l.all Char.isDigit = true) :
    ∀ c ∈ l, c ≠ '.' := by
  intro c hc
  have := List.all_eq_true.mp h c hc
  intro hdot
  subst hdot
  simp [Char.isDigit] at this

theorem canon_isCanon (intD fracD : List Char) (h1 : intD ≠ [])
    (h2 : intD.all Char.isDigit = true) (h3 : fracD.all Char.isDigit = true) :
    isCanonLit (canonNumLit intD fracD).toList = true := by
  have hip1 : stripLeadZeros intD ≠ [] := stripLeadZeros_ne_nil intD h1
  have hip2 : (stripLeadZeros intD).all Char.isDigit = true := stripLeadZeros_all intD h2
  by_cases hf : fracD.isEmpty
  · have hfe : fracD = [] := by simpa [List.isEmpty_iff] using hf
    have hsplit := splitAtDot_append (stripLeadZeros intD) ['0'] (all_digits_no_dot _ hip2)
    have hform : (canonNumLit intD fracD).toList = stripLeadZeros intD ++ '.' :: ['0'] := by
      simp [canonNumLit, hfe, String.toList]
    rw [hform]
    simp only [isCanonLit, hsplit]
    rcases stripLeadZeros_head intD with h0 | h0 <;>
      simp_all [List.all_eq_true, List.isEmpty_iff]
  · have hfne : fracD ≠ [] := by simpa [List.isEmpty_iff] using hf
    have hfp1 : stripTrailZeros fracD ≠ [] := stripTrailZeros_ne_nil fracD hfne
    have hfp2 : (stripTrailZeros fracD).all Char.isDigit = true := stripTrailZeros_all fracD h3
    have hsplit := splitAtDot_append (stripLeadZeros intD) (stripTrailZeros fracD)
      (all_digits_no_dot _ hip2)
    have hform : (canonNumLit intD fracD).toList =
        stripLeadZeros intD ++ '.' :: stripTrailZeros fracD := by
      simp [canonNumLit, hf, String.toList]
    rw [hform]
    simp only [isCanonLit, hsplit]
    rcases stripLeadZeros_head intD with h0 | h0 <;>
      rcases stripTrailZeros_last fracD with h5 | h5 <;>
        simp_all [List.all_eq_true, List.isEmpty_iff]

theorem keywordType_ne_number (w k : String) (h : keywordType w = some k) :
    k ≠ "NUMBER" := by
  intro hk
  subst hk
  simp only [keywordType, List.lookup] at h
  repeat' split at h
  all_goals simp_all

theorem scanLoop_number_canon (fuel : Nat) :
    ∀ (cs : List Char) (line : Nat) (t : Token),
      t ∈ scanLoop fuel cs line → t.ttype = "NUMBER" →
      isCanonLit t.literal.toList = true := by
  induction fuel with
  | zero =>
    intro cs line t ht hty
    simp only [scanLoop, List.mem_singleton] at ht
    subst ht
    simp [eofTok] at hty
  | succ fuel ih =>
    intro cs line t ht hty
    match cs with
    | [] =>
      simp only [scanLoop, List.mem_singleton] at ht
      subst ht
      simp [eofTok] at hty
    | c :: cs' =>
      simp only [scanLoop] at ht
      split at ht
      · exact ih _ _ t ht hty
      · split at ht
        · exact ih _ _ t ht hty
        · split at ht
          · -- slash: comment or division operator
            split at ht
            · exact ih _ _ t ht hty
            · rcases List.mem_cons.mp ht with h | h
              · subst h; simp [opTok] at hty
              · exact ih _ _ t h hty
          · split at ht
            · -- NUMBER branch
              rename_i hdig
              rcases List.mem_cons.mp ht with h | h
              · subst h
                have hspan : spanDigits (c :: cs') =
                    (c :: (spanDigits cs').1, (spanDigits cs').2) := by
                  simp [spanDigits, hdig]
                have hne : (spanDigits (c :: cs')).1 ≠ [] := by simp [hspan]
                exact canon_isCanon _ _ hne (spanDigits_all _) (scanFrac_all _)
              · exact ih _ _ t h hty
            · split at ht
              · -- identifier or keyword
                rcases List.mem_cons.mp ht with h | h
                · split at h
                  · rename_i k hk
                    subst h
                    exact absurd hty (keywordType_ne_number _ k hk)
                  · subst h; simp at hty
                · exact ih _ _ t h hty
              · split at ht
                · -- string literal
                  split at ht
                  · rcases List.mem_cons.mp ht with h | h
                    · subst h; simp at hty
                    · exact ih _ _ t h hty
                  · simp only [List.mem_singleton] at ht
                    subst ht
                    simp [eofTok] at hty
                · split at ht
                  · -- one-or-two-character operator
                    split at ht
                    · rcases List.mem_cons.mp ht with h | h
                      · subst h; simp [opTok] at hty
                      · exact ih _ _ t h hty
                    · rcases List.mem_cons.mp ht with h | h
                      · subst h; simp [opTok] at hty
                      · exact ih _ _ t h hty
                  · split at ht
                    · rcases List.mem_cons.mp ht with h | h
                      · subst h; simp [opTok] at hty
                      · exact ih _ _ t h hty
                    · exact ih _ _ t ht hty


/-! ## Claim theorems -/

/-- C2: for every source text, every NUMBER token the scanner emits has
a literal in canonical decimal form with at least one fractional digit;
scanning `42` yields literal `42.0` and scanning `3.140` yields `3.14`.
(Spec-modelled scanner; see the scanner section header.) -/
theorem c2_number_literals_canonical :
    (∀ (src : String) (t : Token), t ∈ scanTokens src → t.ttype = "NUMBER" →
        isCanonLit t.literal.toList = true)
    ∧ scanTokens "42" = [⟨"NUMBER", "42", "42.0", 1⟩, ⟨"EOF", "", "null", 1⟩]
    ∧ scanTokens "3.140" = [⟨"NUMBER", "3.140", "3.14", 1⟩, ⟨"EOF", "", "null", 1⟩] :=
  ⟨fun _ t ht hty => scanLoop_number_canon _ _ _ t ht hty, by decide, by decide⟩

/-- Witness for C2 at the concrete source `3.140`: the scanned NUMBER
token is a member of the token list and its literal is canonical. -/
theorem c2_number_literals_canonical_witness :
    ((⟨"NUMBER", "3.140", "3.14", 1⟩ : Token) ∈ scanTokens "3.140") ∧
      isCanonLit (("3.14" : String).toList) = true :=
  ⟨by decide,
    c2_number_literals_canonical.1 "3.140" ⟨"NUMBER", "3.140", "3.14", 1⟩ (by decide) rfl⟩

/-- C6 counterexample: the claim asserts reflexivity of `==` for all
non-NaN values including functions, but `isEqual` applied to one and
the same function value yields false. -/
theorem c6_equality_reflexive_counterexample :
    isEqual (.vfun eatFn) (.vfun eatFn) = false := rfl

/-- C6 amended: `v == v` evaluates true exactly for nil, boolean,
number and string values (numbers here are exact fractions, so the
non-NaN proviso is vacuous); for function, class and instance values
`isEqual` falls through every handled kind and yields false. -/
theorem c6_equality_reflexive_amended :
    ∀ v : Value,
      isEqual v v = (match v with
        | .vnil => true
        | .vbool _ => true
        | .vnum _ => true
        | .vstr _ => true
        | .vfun _ => false
        | .vclass _ => false
        | .vinst _ => false) := by
  intro v
  match v with
  | .vnil => rfl
  | .vbool b => cases b <;> rfl
  | .vnum q => simp [isEqual, coerceNum?, qEq]
  | .vstr s =>
    by_cases hd : containsDot s
    · cases hP : parseFloatQ s with
      | some q => simp [isEqual, coerceNum?, hd, hP, qEq]
      | none =>
        have hn : isNumericString s = false := by simp [isNumericString, hd, hP]
        simp [isEqual, coerceNum?, hd, hP, hn]
    · have hn : isNumericString s = false := by simp [isNumericString, hd]
      simp [isEqual, coerceNum?, hd, hn]
  | .vfun f => rfl
  | .vclass c => rfl
  | .vinst i => rfl

/-- C3: the source's `LoxClass.Call` builds a bare instance and its
`Arity` is the constant 0, even when the class declares a two-parameter
`init` method — `init` is never bound or invoked, against the spec's
constructor contract and the method's own doc comment. -/
theorem c3_class_call_ignores_init :
    FindMethod pointClass "init" = some initFn
    ∧ FunV.params initFn = ["x", "y"]
    ∧ ClassArity pointClass = 0
    ∧ ClassCall pointClass [.vnum (qOfNat 3), .vnum (qOfNat 4)] = .mk pointClass []
    ∧ ∀ args : List Value, ClassCall pointClass args = .mk pointClass [] :=
  ⟨rfl, rfl, rfl, rfl, fun _ => rfl⟩

/-- C4: the source's `LoxFunction.Bind` returns the method unchanged —
no new closure frame is created and `this` is not defined anywhere in
the bound method's closure, against its own doc comment. -/
theorem c4_bind_returns_method_unchanged :
    (∀ (f : FunV) (inst : InstV), Bind f inst = f)
    ∧ FunV.closure (Bind eatFn inst0) = FunV.closure eatFn
    ∧ envDefines (FunV.closure (Bind eatFn inst0)) "this" = false :=
  ⟨fun _ _ => rfl, rfl, by decide⟩

/-- C5: both diagnostic sites hardcode line 1: the runtime-error text
for a token on line 2 and the parser-error text for a token on line 3
still print "[line 1]", and the runtime-error text does not depend on
the token at all. -/
theorem c5_diagnostics_hardcode_line_one :
    runtimeErrorMsg ⟨"MINUS", "-", "null", 2⟩ "Operand must be a number."
        = "Operand must be a number.\n[line 1]\n"
    ∧ parserErrorMsg ⟨"EQUAL", "=", "null", 3⟩ "Invalid assignment target."
        = "[line 1] Error at '=': Invalid assignment target.\n"
    ∧ ∀ (t : Token) (m : String), runtimeErrorMsg t m = m ++ "\n[line 1]\n" :=
  ⟨by decide, by decide, fun _ _ => rfl⟩

theorem frameAssign_lookup_self (f : Frame) (x : String) (v : Value)
    (h : frameHas f x = true) : (frameAssign f x v).lookup x = some v := by
  induction f with
  | nil => simp [frameHas, List.lookup] at h
  | cons p rest ih =>
    by_cases hk : p.1 = x
    · simp [frameAssign, hk, List.lookup]
    · have hne : (x == p.1) = false := by
        simp only [beq_eq_false_iff_ne, ne_eq]
        exact fun hxk => hk hxk.symm
      have h2 : frameHas rest x = true := by
        simpa [frameHas, List.lookup, hne] using h
      simp [frameAssign, hk, List.lookup, hne, ih h2]

theorem frameAssign_lookup_ne (f : Frame) (x y : String) (v : Value)
    (h : y ≠ x) : (frameAssign f x v).lookup y = f.lookup y := by
  induction f with
  | nil => rfl
  | cons p rest ih =>
    by_cases hk : p.1 = x
    · subst hk
      have hne : (y == p.1) = false := by simpa [beq_eq_false_iff_ne, ne_eq] using h
      simp [frameAssign, List.lookup, hne]
    · simp [frameAssign, hk, List.lookup, ih]

theorem frameAssign_has (f : Frame) (x : String) (v : Value) (y : String) :
    frameHas (frameAssign f x v) y = frameHas f y := by
  induction f with
  | nil => rfl
  | cons p rest ih =>
    by_cases hk : p.1 = x
    · subst hk
      by_cases hy : y = p.1
      · subst hy; simp [frameAssign, frameHas, List.lookup]
      · have hne : (y == p.1) = false := by simpa [beq_eq_false_iff_ne, ne_eq] using hy
        simp [frameAssign, frameHas, List.lookup, hne]
    · by_cases hy : y = p.1
      · subst hy; simp [frameAssign, frameHas, List.lookup, hk]
      · have hne : (y == p.1) = false := by simpa [beq_eq_false_iff_ne, ne_eq] using hy
        have ih2 : (List.lookup y (frameAssign rest x v)).isSome =
            (List.lookup y rest).isSome := by simpa [frameHas] using ih
        simp [frameAssign, frameHas, List.lookup, hk, hne, ih2]

/-- C7: `Environment.Assign` walks from the current frame toward the
global frame and writes at the first frame that already defines the
name: that frame's binding for the name becomes the new value, its
other bindings and its set of defined names are untouched, every other
frame is returned unchanged, and no new binding is ever created; when
no frame in the chain defines the name, the result is exactly the error
"Undefined variable 'x'." and (the function being pure) no frame is
modified. -/
theorem c7_env_assign_first_defining_frame :
    ∀ (env : Env) (x : String) (v : Value),
      match envAssign env x v with
      | .error e =>
          e = "Undefined variable '" ++ x ++ "'." ∧ ∀ f ∈ env, frameHas f x = false
      | .ok env2 =>
          ∃ i f,
            env.get? i = some f ∧ frameHas f x = true ∧
            (∀ j, j < i → ∀ g, env.get? j = some g → frameHas g x = false) ∧
            env2.get? i = some (frameAssign f x v) ∧
            (∀ j, j ≠ i → env2.get? j = env.get? j) ∧
            (frameAssign f x v).lookup x = some v ∧
            (∀ y, y ≠ x → (frameAssign f x v).lookup y = f.lookup y) ∧
            (∀ y, frameHas (frameAssign f x v) y = frameHas f y) := by
  intro env x v
  induction env with
  | nil => exact ⟨rfl, by simp⟩
  | cons f rest ih =>
    by_cases hf : frameHas f x = true
    · simp only [envAssign, hf, if_true]
      refine ⟨0, f, rfl, hf, ?_, rfl, ?_,
        frameAssign_lookup_self f x v hf,
        fun y hy => frameAssign_lookup_ne f x y v hy,
        fun y => frameAssign_has f x v y⟩
      · intro j hj g hg
        exact absurd hj (Nat.not_lt_zero j)
      · intro j hj
        cases j with
        | zero => exact absurd rfl hj
        | succ j2 => rfl
    · have hfb : frameHas f x = false := by simpa using hf
      simp only [envAssign, hfb, Bool.false_eq_true, if_false]
      cases h2 : envAssign rest x v with
      | error e =>
        rw [h2] at ih
        refine ⟨ih.1, ?_⟩
        intro g hg
        rcases List.mem_cons.mp hg with hg | hg
        · exact hg ▸ hfb
        · exact ih.2 g hg
      | ok rest2 =>
        rw [h2] at ih
        obtain ⟨i, f2, hget, hhas, hbefore, hset, hother, hlook, hlookne, hhaseq⟩ := ih
        refine ⟨i + 1, f2, hget, hhas, ?_, hset, ?_, hlook, hlookne, hhaseq⟩
        · intro j hj g hg
          cases j with
          | zero => exact (Option.some_inj.mp hg) ▸ hfb
          | succ j2 => exact hbefore j2 (Nat.succ_lt_succ_iff.mp hj) g hg
        · intro j hj
          cases j with
          | zero => rfl
          | succ j2 => exact hother j2 (fun heq => hj (by rw [heq]))

/-- Witness for C7: assigning `b` in the sample two-frame chain, the
theorem instantiated at that concrete environment. -/
theorem c7_env_assign_first_defining_frame_witness :
    match envAssign env0 "b" (.vnum (qOfNat 9)) with
    | .error e =>
        e = "Undefined variable '" ++ "b" ++ "'." ∧ ∀ f ∈ env0, frameHas f "b" = false
    | .ok env2 =>
        ∃ i f,
          env0.get? i = some f ∧ frameHas f "b" = true ∧
          (∀ j, j < i → ∀ g, env0.get? j = some g → frameHas g "b" = false) ∧
          env2.get? i = some (frameAssign f "b" (.vnum (qOfNat 9))) ∧
          (∀ j, j ≠ i → env2.get? j = env0.get? j) ∧
          (frameAssign f "b" (.vnum (qOfNat 9))).lookup "b" = some (.vnum (qOfNat 9)) ∧
          (∀ y, y ≠ "b" → (frameAssign f "b" (.vnum (qOfNat 9))).lookup y = f.lookup y) ∧
          (∀ y, frameHas (frameAssign f "b" (.vnum (qOfNat 9))) y = frameHas f y) :=
  c7_env_assign_first_defining_frame env0 "b" (.vnum (qOfNat 9))

theorem setField_lookup_self (l : List (String × Value)) (x : String) (v : Value) :
    (setField l x v).lookup x = some v := by
  induction l with
  | nil => simp [setField, List.lookup]
  | cons p rest ih =>
    by_cases hk : p.1 = x
    · simp [setField, hk, List.lookup]
    · have hne : (x == p.1) = false := by
        simp only [beq_eq_false_iff_ne, ne_eq]
        exact fun hxk => hk hxk.symm
      simp [setField, hk, List.lookup, hne, ih]

/-- C9: `LoxInstance.Get` returns the instance's field when one with
the requested name exists, consults the class's method table (binding
the method to the instance) only when no such field exists, and after
`Set` stores a field under a method's name every subsequent `Get` of
that name on the instance yields the stored value, shadowing the
method. -/
theorem c9_field_shadows_method :
    (∀ (inst : InstV) (name : String) (v : Value),
        (InstV.fields inst).lookup name = some v → instGet inst name = some v)
    ∧ (∀ (inst : InstV) (name : String),
        (InstV.fields inst).lookup name = none →
        instGet inst name =
          (FindMethod (InstV.cls inst) name).map (fun m => .vfun (Bind m inst)))
    ∧ (∀ (inst : InstV) (name : String) (v : Value),
        instGet (instSet inst name v) name = some v) := by
  refine ⟨?_, ?_, ?_⟩
  · intro inst name v h
    simp [instGet, h]
  · intro inst name h
    cases hm : FindMethod (InstV.cls inst) name with
    | none => simp [instGet, h, hm]
    | some m => simp [instGet, h, hm]
  · intro inst name v
    simp [instGet, instSet, InstV.fields, InstV.cls, setField_lookup_self]

/-- Witness for C9 on the sample instance: the method is found while no
field exists, and a stored field with the method's name shadows it. -/
theorem c9_field_shadows_method_witness :
    (InstV.fields inst0).lookup "eat" = none ∧
      instGet inst0 "eat" = some (.vfun (Bind eatFn inst0)) ∧
      instGet (instSet inst0 "eat" (.vnum (qOfNat 7))) "eat" = some (.vnum (qOfNat 7)) :=
  ⟨rfl,
    by simpa using c9_field_shadows_method.2.1 inst0 "eat" rfl,
    c9_field_shadows_method.2.2 inst0 "eat" (.vnum (qOfNat 7))⟩

theorem findScopeDepth_none (scopes : List Scope) (x : String)
    (h : ∀ s ∈ scopes, s.lookup x = none) : findScopeDepth scopes x = none := by
  induction scopes with
  | nil => rfl
  | cons s rest ih =>
    have h1 : s.lookup x = none := h s (by simp)
    have h2 : ∀ t ∈ rest, t.lookup x = none := fun t ht => h t (by simp [ht])
    simp [findScopeDepth, h1, ih h2]

/-- C10: `Resolver.declare` reports "Already a variable with this name
in this scope." exactly when the scope stack is non-empty and the
innermost scope already has the name; with an empty scope stack both
`declare` and `define` are identity (so duplicate global declarations
never error), and `resolveLocal` records no side-table entry for a name
found in no scope. -/
theorem c10_resolver_toplevel_and_duplicates :
    (∀ (r : Resolver) (name : Token),
        ((declare r name).errs = dupMsg name :: r.errs ↔
          ∃ s rest, r.scopes = s :: rest ∧ (s.lookup name.lexeme).isSome = true))
    ∧ (∀ (r : Resolver) (name : Token), r.scopes = [] →
        declare r name = r ∧ define r name = r)
    ∧ (∀ (r : Resolver) (eid : Nat) (name : Token),
        (∀ s ∈ r.scopes, s.lookup name.lexeme = none) →
        resolveLocal r eid name = r) := by
  refine ⟨?_, ?_, ?_⟩
  · intro r name
    constructor
    · intro h
      cases hs : r.scopes with
      | nil =>
        rw [declare, hs] at h
        exact absurd h.symm (List.cons_ne_self _ _)
      | cons s rest =>
        by_cases hdup : (s.lookup name.lexeme).isSome = true
        · exact ⟨s, rest, rfl, hdup⟩
        · rw [Bool.not_eq_true] at hdup
          rw [declare, hs] at h
          simp [hdup] at h
    · rintro ⟨s, rest, hs, hdup⟩
      obtain ⟨scopes, table, errs, flag⟩ := r
      simp only at hs
      subst hs
      simp only [declare, hdup, eq_self_iff_true, if_true]
  · intro r name h
    exact ⟨by simp [declare, h], by simp [define, h]⟩
  · intro r eid name h
    have hd := findScopeDepth_none r.scopes name.lexeme h
    simp [resolveLocal, hd]

/-- Witness for C10: duplicate declaration at top level is accepted
silently, resolving a name absent from every scope records nothing, and
declaring a duplicate inside a scope emits the diagnostic. -/
theorem c10_resolver_toplevel_and_duplicates_witness :
    declare resTop ⟨"IDENTIFIER", "x", "null", 1⟩ = resTop ∧
      resolveLocal res0 5 ⟨"IDENTIFIER", "y", "null", 1⟩ = res0 ∧
      (declare res0 ⟨"IDENTIFIER", "x", "null", 2⟩).errs =
        dupMsg ⟨"IDENTIFIER", "x", "null", 2⟩ :: res0.errs :=
  ⟨(c10_resolver_toplevel_and_duplicates.2.1 resTop ⟨"IDENTIFIER", "x", "null", 1⟩ rfl).1,
    c10_resolver_toplevel_and_duplicates.2.2 res0 5 ⟨"IDENTIFIER", "y", "null", 1⟩ (by decide),
    (c10_resolver_toplevel_and_duplicates.1 res0 ⟨"IDENTIFIER", "x", "null", 2⟩).mpr
      ⟨[("x", true)], [], rfl, by decide⟩⟩

end Lox
